import Mathlib

/-!
Shallow embedding of the `cmd` Go package: a minimal command-dispatch
framework (commands with positional args, flags, required environment
variables; an application registry dispatching on the first token).
Definitions are translated from the Go source; theorems check the
natural-language specification against them.
-/

namespace CmdSpec

/-- Whitespace characters trimmed by `strings.TrimSpace`: the full set
`unicode.IsSpace` accepts, which is the Unicode White_Space property —
the six ASCII space characters, NEL and NBSP in Latin-1, and the
non-Latin-1 code points U+1680, U+2000 through U+200A, U+2028, U+2029,
U+202F, U+205F and U+3000. -/
def isSpace (c : Char) : Bool :=
  c = ' ' ∨ c = '\t' ∨ c = '\n' ∨ c = '\x0b' ∨ c = '\x0c' ∨ c = '\r' ∨
  c = '\x85' ∨ c = '\xa0' ∨ c = '\u1680' ∨
  ('\u2000' ≤ c ∧ c ≤ '\u200a') ∨ c = '\u2028' ∨ c = '\u2029' ∨
  c = '\u202f' ∨ c = '\u205f' ∨ c = '\u3000'

/-- Model of `strings.TrimSpace` on the character list: drop whitespace from both ends. -/
def trimChars (l : List Char) : List Char :=
  ((l.dropWhile isSpace).reverse.dropWhile isSpace).reverse

/-- Model of `strings.TrimSpace`. -/
def trimSpace (s : String) : String :=
  ⟨trimChars s.data⟩

/-- Base-10 digit test, as in `strconv`. -/
def isDig (c : Char) : Bool :=
  '0' ≤ c && c ≤ '9'

def decimalDigits (cs : List Char) : Bool :=
  cs.all isDig

/-- Numeric value of a base-10 digit string (most significant digit first). -/
def decVal (cs : List Char) : Nat :=
  cs.foldl (fun a c => 10 * a + (c.toNat - 48)) 0

/-- The error text `strconv` produces: a `NumError` naming the function,
the offending input text, and the reason. -/
def numErr (fn s reason : String) : String :=
  "strconv." ++ fn ++ ": parsing \"" ++ s ++ "\": " ++ reason

/-- Model of `strconv.ParseInt(s, 10, bitSize)`: optional sign, then a nonempty
run of base-10 digits; the result must fit in `bitSize` signed bits. -/
def goParseInt (s : String) (bitSize : Nat) : Except String Int :=
  match s.data with
  | [] => .error (numErr "ParseInt" s "invalid syntax")
  | c :: rest =>
    let neg := c = '-'
    let ds := if c = '-' ∨ c = '+' then rest else c :: rest
    if ds = [] ∨ ¬ decimalDigits ds then .error (numErr "ParseInt" s "invalid syntax")
    else
      let i : Int := if neg then -(decVal ds : Int) else (decVal ds : Int)
      if i < -(2 ^ (bitSize - 1) : Int) ∨ i > (2 ^ (bitSize - 1) : Int) - 1 then
        .error (numErr "ParseInt" s "value out of range")
      else .ok i

/-- Model of `strconv.ParseUint(s, 10, bitSize)`: a nonempty run of base-10 digits
(no sign accepted); the result must fit in `bitSize` bits. -/
def goParseUint (s : String) (bitSize : Nat) : Except String Nat :=
  if s.data = [] ∨ ¬ decimalDigits s.data then
    .error (numErr "ParseUint" s "invalid syntax")
  else if decVal s.data > 2 ^ bitSize - 1 then
    .error (numErr "ParseUint" s "value out of range")
  else .ok (decVal s.data)

/-- Model of `strconv.ParseBool`: the exact set of accepted literals. -/
def parseBoolLit (s : String) : Option Bool :=
  if s = "1" ∨ s = "t" ∨ s = "T" ∨ s = "true" ∨ s = "TRUE" ∨ s = "True" then some true
  else if s = "0" ∨ s = "f" ∨ s = "F" ∨ s = "false" ∨ s = "FALSE" ∨ s = "False" then
    some false
  else none

/-- Model of `type Value string`: a lazily typed wrapper over one raw token. -/
abbrev Value := String

/-- Alias for the ambient string type, usable inside the `Value` method
signatures where a bare name would resolve to the method itself. -/
abbrev GoString := String

/-- Alias for the ambient boolean type (see `GoString`). -/
abbrev GoBool := Bool

/-- Alias for the ambient integer type (see `GoString`). -/
abbrev GoInt := Int

/-- Method `Value.String()`. -/
def Value.String (v : Value) : GoString := v

/-- Method `Value.Bool()` via `strconv.ParseBool`. -/
def Value.Bool (v : Value) : Except GoString GoBool :=
  match parseBoolLit v with
  | some b => .ok b
  | none => .error (numErr "ParseBool" v "invalid syntax")

/-- Method `Value.Int()`: `strconv.ParseInt(string(v), 10, 32)`. -/
def Value.Int (v : Value) : Except GoString GoInt :=
  goParseInt v 32

/-- Method `Value.Int64()`: `strconv.ParseInt(string(v), 10, 64)`. -/
def Value.Int64 (v : Value) : Except GoString GoInt :=
  goParseInt v 64

/-- Method `Value.Uint64()`: `strconv.ParseUint(string(v), 10, 64)`. -/
def Value.Uint64 (v : Value) : Except GoString Nat :=
  goParseUint v 64

/-- The specification-side notion that text parses as a base-10 integer:
`t` is the base-10 notation of the integer `i` — an optional leading sign
when `allowSign` is set, then at least one digit.  The width constraint is
stated separately at each use site. -/
def SpecRep (t : String) (allowSign : Bool) (i : Int) : Prop :=
  ∃ ds : List Char, ds ≠ [] ∧ decimalDigits ds = true ∧
    ((t.data = ds ∧ i = (decVal ds : Int)) ∨
     (allowSign = true ∧ t.data = '+' :: ds ∧ i = (decVal ds : Int)) ∨
     (allowSign = true ∧ t.data = '-' :: ds ∧ i = -(decVal ds : Int)))

/-- Equality of `Except` results is decidable when both components are. -/
instance {ε α : Type} [DecidableEq ε] [DecidableEq α] : DecidableEq (Except ε α) :=
  fun a b =>
    match a, b with
    | .ok x, .ok y =>
      if h : x = y then .isTrue (by rw [h]) else .isFalse (by simp [h])
    | .error x, .error y =>
      if h : x = y then .isTrue (by rw [h]) else .isFalse (by simp [h])
    | .ok _, .error _ => .isFalse (by simp)
    | .error _, .ok _ => .isFalse (by simp)

/-- One positional-argument declaration (`type Arg struct`). -/
structure Arg where
  Name : String
  Description : String
  Variable : Bool
deriving DecidableEq

/-- One declared flag of a `flag.FlagSet`: its name, usage text, whether it
is a boolean flag, the declared default and the current value.  String and
boolean values are both kept in textual form, the form `flag.Value.String()`
reports. -/
structure FlagSpec where
  name : String
  usage : String
  isBool : Bool
  defValue : String
  value : String
deriving DecidableEq

/-- The state of a `flag.FlagSet`: the declared flags and the positional
arguments remaining after the last `Parse`. -/
structure FlagSet where
  formal : List FlagSpec
  args : List String
deriving DecidableEq

/-- Model of `type Command struct`.  The `Setup` and `Run` callbacks are external
collaborators and are not part of the state; `EnvArgs` (a Go map) is kept
as an association list. -/
structure Command where
  Name : String
  Description : String
  Group : String
  Args : List Arg
  EnvArgs : List (String × String)
  Flags : FlagSet
deriving DecidableEq

/-- Constructor `NewCommand` (callbacks omitted). -/
def NewCommand (name group desc : String) : Command :=
  { Name := name, Description := desc, Group := group,
    Args := [], EnvArgs := [], Flags := { formal := [], args := [] } }

/-- Method `Command.AppendArg`: append a fixed positional Arg. -/
def Command.AppendArg (cmd : Command) (name desc : String) : Command :=
  { cmd with Args := cmd.Args ++ [{ Name := name, Description := desc, Variable := false }] }

/-- Method `Command.AppendVarArg`: append a variable positional Arg. -/
def Command.AppendVarArg (cmd : Command) (name desc : String) : Command :=
  { cmd with Args := cmd.Args ++ [{ Name := name, Description := desc, Variable := true }] }

/-- Method `Command.AddFlag`: declare a string flag; its value starts at the default. -/
def Command.AddFlag (cmd : Command) (name defaultValue desc : String) : Command :=
  { cmd with Flags := { cmd.Flags with formal := cmd.Flags.formal ++
      [{ name := name, usage := desc, isBool := false,
         defValue := defaultValue, value := defaultValue }] } }

/-- Method `Command.AddFlagBool`: declare a boolean flag. -/
def Command.AddFlagBool (cmd : Command) (name : String) (defaultValue : Bool)
    (desc : String) : Command :=
  { cmd with Flags := { cmd.Flags with formal := cmd.Flags.formal ++
      [{ name := name, usage := desc, isBool := true,
         defValue := if defaultValue then "true" else "false",
         value := if defaultValue then "true" else "false" }] } }

/-- Method `Command.AddEnvArg`: mark an environment variable as required. -/
def Command.AddEnvArg (cmd : Command) (name desc : String) : Command :=
  { cmd with EnvArgs := cmd.EnvArgs ++ [(name, desc)] }

/-- Method `FlagSet.Lookup`: first declared flag with the given name (`nil` → `none`). -/
def lookupFlag (fs : List FlagSpec) (name : String) : Option FlagSpec :=
  fs.find? (fun f => f.name = name)

/-- Setting a declared flag to a new textual value (`flag.Value.Set`). -/
def setFlag (fs : List FlagSpec) (name value : String) : List FlagSpec :=
  fs.map (fun f => if f.name = name then { f with value := value } else f)

/-- Split a flag body at its first `=` sign: `name=value` becomes
`(name, some value)`; a body with no `=` keeps everything as the name. -/
def splitAtEq : List Char → List Char × Option (List Char)
  | [] => ([], none)
  | c :: rest =>
    if c = '=' then ([], some rest)
    else
      let p := splitAtEq rest
      (c :: p.1, p.2)

/-- What one step of `flag.(*FlagSet).parseOne` does with the token at the
head of the argument list. -/
inductive StepRes where
  /-- The token does not look like a flag: flag scanning stops and the token
  and everything after it are positional. -/
  | stop
  /-- The bare `--` terminator: it is consumed and scanning stops. -/
  | term
  /-- A fatal flag-parsing error (with `flag.ExitOnError` the process exits). -/
  | err (msg : String)
  /-- A flag assignment contained in this one token. -/
  | setOne (name value : String)
  /-- A non-boolean flag without `=`: the next token is taken as its value. -/
  | needsValue (name : String)
deriving DecidableEq

/-- The syntactic shape of one token, before any flag lookup. -/
inductive TokKind where
  /-- Not flag-shaped: scanning stops here. -/
  | stop
  /-- The bare `--` terminator. -/
  | term
  /-- A flag token; the payload is everything after the leading dashes. -/
  | flagBody (body : List Char)
deriving DecidableEq

/-- Shape analysis of one token, as `flag.(*FlagSet).parseOne` performs it:
tokens shorter than two characters or not starting with `-` stop scanning,
the bare `--` terminates it, and otherwise the rest after one or two
dashes is the flag body. -/
def tokKind (s : String) : TokKind :=
  match s.data with
  | [] => .stop
  | [_] => .stop
  | c0 :: c1 :: cs2 =>
    if c0 ≠ '-' then .stop
    else if c1 = '-' ∧ cs2 = [] then .term
    else .flagBody (if c1 = '-' then cs2 else c1 :: cs2)

/-- The name of the flag a flag-shaped token targets (up to the first `=`),
`none` for tokens that are not flag-shaped. -/
def tokFlagName (s : String) : Option String :=
  match tokKind s with
  | .flagBody body => some ⟨(splitAtEq body).1⟩
  | _ => none

/-- Classify the head token as `flag.(*FlagSet).parseOne` does: the flag
name runs to the first `=`, a name starting with `-` or `=` is bad syntax,
unknown names are fatal, boolean flags take an inline value or default to
`true`, other flags need an explicit value. -/
def classifyTok (flags : List FlagSpec) (s : String) : StepRes :=
  match tokKind s with
  | .stop => .stop
  | .term => .term
  | .flagBody body =>
    match body with
    | [] => .err "bad flag syntax"
    | b0 :: _ =>
      if b0 = '-' ∨ b0 = '=' then .err ("bad flag syntax: " ++ s)
      else
        let nv := splitAtEq body
        let name : String := ⟨nv.1⟩
        match lookupFlag flags name with
        | none =>
          if name = "help" ∨ name = "h" then .err "flag: help requested"
          else .err ("flag provided but not defined: -" ++ name)
        | some f =>
          if f.isBool then
            match nv.2 with
            | some vcs =>
              match parseBoolLit ⟨vcs⟩ with
              | some b => .setOne name (if b then "true" else "false")
              | none =>
                .err ("invalid boolean value \"" ++ (⟨vcs⟩ : String) ++
                      "\" for -" ++ name ++ ": parse error")
            | none => .setOne name "true"
          else
            match nv.2 with
            | some vcs => .setOne name ⟨vcs⟩
            | none => .needsValue name

/-- Model of `flag.(*FlagSet).Parse`: scan flag tokens from the front of the list,
updating flag values; return the updated flags and the positional suffix,
or the first fatal error. -/
def parseArgs (flags : List FlagSpec) : List String → Except String (List FlagSpec × List String)
  | [] => .ok (flags, [])
  | s :: rest =>
    match classifyTok flags s with
    | .stop => .ok (flags, s :: rest)
    | .term => .ok (flags, rest)
    | .err m => .error m
    | .setOne n v => parseArgs (setFlag flags n v) rest
    | .needsValue n =>
      match rest with
      | [] => .error ("flag needs an argument: -" ++ n)
      | v :: rest2 => parseArgs (setFlag flags n v) rest2

/-- The two ways a `Parse` can fail: a fatal flag error (`flag.ExitOnError`
terminates the process) or a returned `*UsageErr` with its message. -/
inductive GoError where
  | exit (msg : String)
  | usageErr (msg : String)
deriving DecidableEq

/-- Method `Command.EnvArg`: the named variable read from the environment and
trimmed of surrounding whitespace.  The process environment is passed
explicitly; an unset variable reads as the empty string, as with
`os.Getenv`. -/
def Command.EnvArg (_cmd : Command) (env : String → String) (name : String) : Value :=
  trimSpace (env name)

/-- Method `Command.Parse`: run the flag set over the tokens, check the positional
arity (exact count without a variable Arg, at-least count with one), then
check every required environment variable is non-blank after trimming.
Success returns the command with its flag set updated. -/
def Command.Parse (cmd : Command) (env : String → String) (args : List String) :
    Except GoError Command :=
  match parseArgs cmd.Flags.formal args with
  | .error e => .error (.exit e)
  | .ok (fl, pos) =>
    let varArgs := cmd.Args.any (fun a => a.Variable)
    if varArgs = false ∧ pos.length ≠ cmd.Args.length then
      .error (.usageErr "Wrong number of command arguments")
    else if varArgs = true ∧ pos.length < cmd.Args.length then
      .error (.usageErr "Wrong number of command arguments")
    else
      match cmd.EnvArgs.find? (fun p => cmd.EnvArg env p.1 = "") with
      | some p => .error (.usageErr ("Environment variable " ++ p.1 ++ " is unset"))
      | none => .ok { cmd with Flags := { formal := fl, args := pos } }

/-- Go slice expression `l[i:]` (with the high bound omitted): defined for
`0 ≤ i ≤ len(l)`, a runtime panic (modelled as `none`) otherwise. -/
def goSliceFrom (l : List String) (i : Int) : Option (List String) :=
  if 0 ≤ i ∧ i ≤ (l.length : Int) then some (l.drop i.toNat) else none

/-- Method `Command.VarArgs`: the positional tokens from index `len(cmd.Args)-1`
onward, as Values.  The index arithmetic is Go `int` arithmetic: with no
declared Args the slice bound is `-1` and the slice expression panics. -/
def Command.VarArgs (cmd : Command) : Option (List Value) :=
  goSliceFrom cmd.Flags.args ((cmd.Args.length : Int) - 1)

/-- Method `Command.Flag`: `cmd.Flags.Lookup(name).Value.String()`.  When no flag
of that name was declared, `Lookup` returns `nil` and the dereference
panics; the panic is modelled as `none`. -/
def Command.Flag (cmd : Command) (name : String) : Option Value :=
  (lookupFlag cmd.Flags.formal name).map (fun f => f.value)

/-- Model of `type App struct`: the registry, a name-to-command map kept as the list
of registrations in order (a later registration of the same name shadows an
earlier one on lookup, as Go map assignment does). -/
structure App where
  Commands : List (String × Command)
  Description : String
deriving DecidableEq

/-- Constructor `NewApp`. -/
def NewApp : App :=
  { Commands := [], Description := "" }

/-- Method `App.AddCommand`: `app.Commands[cmd.Name] = cmd` (the `Setup` callback
runs before registration in this model, so commands arrive fully built). -/
def App.AddCommand (app : App) (cmd : Command) : App :=
  { app with Commands := app.Commands ++ [(cmd.Name, cmd)] }

/-- Go map lookup `app.Commands[name]`: the most recent binding wins. -/
def App.lookupCmd (app : App) (name : String) : Option Command :=
  (app.Commands.reverse.find? (fun p => p.1 = name)).map (fun p => p.2)

/-- What a call to `App.Run` does, as an observable outcome: which usage
renderer ran, which error was returned with which usage binding, whether
the process exited inside flag parsing, or which command ran with which
parsed state. -/
inductive RunResult where
  /-- Outcome where `app.Usage()` was rendered and `nil` returned. -/
  | usageShownApp
  /-- Outcome where `cmd.Usage()` was rendered and `nil` returned; `Parse` and the `Run`
  callback were not invoked. -/
  | usageShownCmd (name : String)
  /-- A `*UsageErr` bound to the application-level `app.Usage` was returned. -/
  | errApp (msg : String)
  /-- A `*UsageErr` bound to the usage of the named command was returned. -/
  | errCmd (name msg : String)
  /-- Outcome where `flag.ExitOnError` terminated the process during `cmd.Parse`. -/
  | exited (msg : String)
  /-- Outcome where `cmd.Run(cmd)` was invoked on the parsed command state. -/
  | ran (name : String) (c : Command)
deriving DecidableEq

/-- Method `App.Run`: reject fewer than two tokens, short-circuit `--help` as the
command name to application usage, look the command up, short-circuit
`--help` among the remaining tokens to command usage, otherwise parse and
dispatch. -/
def App.Run (app : App) (env : String → String) (args : List String) : RunResult :=
  match args with
  | [] => .errApp "No command given"
  | [_] => .errApp "No command given"
  | _ :: cmdName :: rest =>
    if cmdName = "--help" then .usageShownApp
    else
      match app.lookupCmd cmdName with
      | none => .errApp "Invalid command"
      | some cmd =>
        if rest.any (fun a => a = "--help") then .usageShownCmd cmd.Name
        else
          match cmd.Parse env rest with
          | .error (.exit m) => .exited m
          | .error (.usageErr m) => .errCmd cmd.Name m
          | .ok c => .ran cmd.Name c

/-- Model of `sort.StringSlice.Sort`: sort strings in lexicographic order. -/
def strSort (l : List String) : List String :=
  l.insertionSort (fun a b => a ≤ b)

/-- The bindings that survive in the Go map `app.Commands`: of the
registrations sharing a name, only the last assignment is kept
(last-write-wins), as `app.Commands[cmd.Name] = cmd` behaves. -/
def survivors : List (String × Command) → List (String × Command)
  | [] => []
  | p :: rest =>
    if rest.any (fun q => q.1 = p.1) then survivors rest
    else p :: survivors rest

/-- The grouped command listing rendered by `App.Usage`, ranging over the
surviving map bindings: every group of a surviving command exactly once,
groups sorted lexicographically, and inside each group the names of its
commands sorted lexicographically. -/
def App.usageGroups (app : App) : List (String × List String) :=
  let cmds := survivors app.Commands
  let groups := (cmds.map (fun p => p.2.Group)).dedup
  (strSort groups).map (fun g =>
    (g, strSort ((cmds.filter (fun p => p.2.Group = g)).map (fun p => p.2.Name))))

/-- Register a list of commands in order on a fresh registry. -/
def registerAll (cs : List Command) : App :=
  cs.foldl App.AddCommand NewApp

/-- An environment with every variable unset (`os.Getenv` yields `""`). -/
def emptyEnv : String → String := fun _ => ""

/-- A command with one fixed Arg followed by one variable Arg. -/
def c1cmd : Command :=
  ((NewCommand "test" "grp" "does test stuff").AppendArg "a" "arg a").AppendVarArg
    "rest" "trailing args"

/-- A command with one fixed Arg and no variable Arg. -/
def c2cmd : Command :=
  (NewCommand "test" "grp" "does test stuff").AppendArg "a" "arg a"

/-- A command with two fixed Args. -/
def c3cmd : Command :=
  ((NewCommand "test" "grp" "does test stuff").AppendArg "a" "arg a").AppendArg
    "b" "arg b"

/-- A command requiring one environment variable. -/
def c6cmd : Command :=
  (NewCommand "test" "grp" "does test stuff").AddEnvArg "HOME_DIR" "home directory"

/-- An environment where the required variable holds padded text. -/
def paddedEnv : String → String := fun n => if n = "HOME_DIR" then " v " else ""

/-- A plain registered command used by the dispatch scenarios. -/
def testCmd : Command := NewCommand "test" "grp" "does test stuff"

/-- A registry holding just `testCmd`. -/
def app4 : App := registerAll [testCmd]

/-- Commands in two groups used by the usage-ordering scenario. -/
def cmdGA : Command := NewCommand "beta" "g2" "b cmd"

/-- Second sorting-scenario command. -/
def cmdGB : Command := NewCommand "alpha" "g1" "a cmd"

/-- First of two same-named commands registered in different groups. -/
def dupA : Command := NewCommand "n" "g1" "first registration"

/-- Second of two same-named commands registered in different groups. -/
def dupB : Command := NewCommand "n" "g2" "second registration"

/-- The parsed state produced by the variable-argument scenario. -/
def c1parsed : Command :=
  { Name := "test", Description := "does test stuff", Group := "grp",
    Args := c1cmd.Args, EnvArgs := [],
    Flags := { formal := [], args := ["x", "y", "z"] } }

/-- The parsed state produced by the fixed-argument scenario. -/
def c2parsed : Command :=
  { Name := "test", Description := "does test stuff", Group := "grp",
    Args := c2cmd.Args, EnvArgs := [],
    Flags := { formal := [], args := ["x"] } }

theorem head?_dropWhile {p : Char → Bool} {l : List Char} {c : Char}
    (h : (l.dropWhile p).head? = some c) : p c = false := by
  have hd := List.head?_dropWhile_not p l
  rw [h] at hd
  exact hd

theorem getLast?_dropWhile_ne_nil {p : Char → Bool} {l : List Char}
    (h : l.dropWhile p ≠ []) : (l.dropWhile p).getLast? = l.getLast? := by
  conv_rhs => rw [← List.takeWhile_append_dropWhile p l]
  rw [List.getLast?_append_of_ne_nil _ h]

/-- The head of a trimmed character list is not whitespace. -/
theorem trimChars_head {l : List Char} {c : Char}
    (h : (trimChars l).head? = some c) : isSpace c = false := by
  unfold trimChars at h
  rw [List.head?_reverse] at h
  have hne : (((l.dropWhile isSpace).reverse).dropWhile isSpace) ≠ [] := by
    intro he
    rw [he] at h
    cases h
  rw [getLast?_dropWhile_ne_nil hne, List.getLast?_reverse] at h
  exact head?_dropWhile h

/-- The last character of a trimmed character list is not whitespace. -/
theorem trimChars_getLast {l : List Char} {c : Char}
    (h : (trimChars l).getLast? = some c) : isSpace c = false := by
  unfold trimChars at h
  rw [List.getLast?_reverse] at h
  exact head?_dropWhile h

/-- Trimming removes a whitespace prefix and a whitespace suffix and
nothing else. -/
theorem trimChars_decomp (l : List Char) :
    ∃ pre post, l = pre ++ trimChars l ++ post ∧
      pre.all isSpace = true ∧ post.all isSpace = true := by
  refine ⟨l.takeWhile isSpace, ((l.dropWhile isSpace).reverse.takeWhile isSpace).reverse,
    ?_, ?_, ?_⟩
  · unfold trimChars
    conv_lhs => rw [← List.takeWhile_append_dropWhile isSpace l]
    rw [List.append_assoc]
    congr 1
    conv_lhs => rw [← List.reverse_reverse (l.dropWhile isSpace)]
    conv_lhs => rw [← List.takeWhile_append_dropWhile isSpace (l.dropWhile isSpace).reverse]
    rw [List.reverse_append]
  · rw [List.all_eq_true]
    intro x hx
    exact List.mem_takeWhile_imp hx
  · rw [List.all_eq_true]
    intro x hx
    rw [List.mem_reverse] at hx
    exact List.mem_takeWhile_imp hx

/-- Dropping all but the final element of a nonempty list leaves exactly
its last element. -/
theorem drop_pred_getLast {α : Type} {l : List α} (h : l ≠ []) :
    ∃ t, l.getLast? = some t ∧ l.drop (l.length - 1) = [t] := by
  induction l with
  | nil => exact absurd rfl h
  | cons a rest ih =>
    cases rest with
    | nil => exact ⟨a, rfl, rfl⟩
    | cons b t =>
      obtain ⟨x, hx1, hx2⟩ := ih (by simp)
      refine ⟨x, ?_, ?_⟩
      · rw [← hx1]
        rfl
      · have hlen : (a :: b :: t).length - 1 = (b :: t).length - 1 + 1 := by
          simp [List.length_cons]
        rw [hlen, List.drop_succ_cons, hx2]

/-- Lemma: `find?` on a name predicate commutes with a map that preserves names. -/
theorem find?_map_name {fs : List FlagSpec} {g : FlagSpec → FlagSpec}
    (hg : ∀ f, (g f).name = f.name) (name : String) :
    List.find? (fun f => f.name = name) (fs.map g) =
      (List.find? (fun f => f.name = name) fs).map g := by
  induction fs with
  | nil => rfl
  | cons f rest ih =>
    simp only [List.map_cons, List.find?]
    by_cases hf : f.name = name
    · simp [hg, hf]
    · simp only [hg, hf, decide_False]
      exact ih

/-- What `setFlag` does to a lookup: the found record, with its value
replaced when the names coincide. -/
theorem lookupFlag_setFlag (fs : List FlagSpec) (n v name : String) :
    lookupFlag (setFlag fs n v) name =
      (lookupFlag fs name).map
        (fun f => if f.name = n then { f with value := v } else f) := by
  unfold lookupFlag setFlag
  exact find?_map_name (fun f => by split <;> rfl) name

/-- Setting one flag leaves the lookup of every other name unchanged. -/
theorem lookupFlag_setFlag_ne {fs : List FlagSpec} {n v name : String}
    (h : n ≠ name) : lookupFlag (setFlag fs n v) name = lookupFlag fs name := by
  rw [lookupFlag_setFlag]
  rcases hx : lookupFlag fs name with _ | f
  · rfl
  · have hf : f.name = name := by
      have := List.find?_some hx
      simpa using this
    have : f.name ≠ n := fun e => h (e.symm.trans hf)
    simp [this]

/-- The classifier only assigns to the flag name `tokFlagName` computes
for the token. -/
theorem classify_assign_name {flags : List FlagSpec} {s : String} {r : StepRes}
    (h : classifyTok flags s = r) :
    ∀ n : String,
      ((∃ v, r = .setOne n v) ∨ r = .needsValue n) → tokFlagName s = some n := by
  intro n hn
  unfold classifyTok at h
  rcases hk : tokKind s with _ | _ | body <;> simp only [hk] at h
  · rcases hn with ⟨v, hv⟩ | hv <;> rw [hv] at h <;> cases h
  · rcases hn with ⟨v, hv⟩ | hv <;> rw [hv] at h <;> cases h
  · rcases hb : body with _ | ⟨b0, bs⟩ <;> simp only [hb] at h
    · rcases hn with ⟨v, hv⟩ | hv <;> rw [hv] at h <;> cases h
    · by_cases hd : b0 = '-' ∨ b0 = '='
      · rw [if_pos hd] at h
        rcases hn with ⟨v, hv⟩ | hv <;> rw [hv] at h <;> cases h
      · rw [if_neg hd] at h
        rcases hl : lookupFlag flags ⟨(splitAtEq (b0 :: bs)).1⟩ with _ | f <;>
            simp only [hl] at h
        · split at h <;> (rcases hn with ⟨v, hv⟩ | hv <;> rw [hv] at h <;> cases h)
        · by_cases hib : f.isBool = true
          · rw [if_pos hib] at h
            rcases hs2 : (splitAtEq (b0 :: bs)).2 with _ | vcs <;>
                simp only [hs2] at h
            · rcases hn with ⟨v, hv⟩ | hv <;> rw [hv] at h <;> cases h <;>
                simp [tokFlagName, hk, hb]
            · rcases hpb : parseBoolLit ⟨vcs⟩ with _ | bv <;> simp only [hpb] at h
              · rcases hn with ⟨v, hv⟩ | hv <;> rw [hv] at h <;> cases h
              · rcases hn with ⟨v, hv⟩ | hv <;> rw [hv] at h <;> cases h <;>
                  simp [tokFlagName, hk, hb]
          · rw [if_neg hib] at h
            rcases hs2 : (splitAtEq (b0 :: bs)).2 with _ | vcs <;>
                simp only [hs2] at h
            · rcases hn with ⟨v, hv⟩ | hv <;> rw [hv] at h <;> cases h <;>
                simp [tokFlagName, hk, hb]
            · rcases hn with ⟨v, hv⟩ | hv <;> rw [hv] at h <;> cases h <;>
                simp [tokFlagName, hk, hb]

theorem parseArgs_lookup_aux (N : Nat) :
    ∀ (args : List String), args.length ≤ N →
    ∀ (fs fs' : List FlagSpec) (pos : List String) (name : String),
    parseArgs fs args = .ok (fs', pos) →
    (∀ tok ∈ args, tokFlagName tok ≠ some name) →
    lookupFlag fs' name = lookupFlag fs name := by
  induction N with
  | zero =>
    intro args hlen fs fs' pos name hp _
    cases args with
    | nil =>
      unfold parseArgs at hp
      cases hp
      rfl
    | cons s rest => simp at hlen
  | succ N ih =>
    intro args hlen fs fs' pos name hp hno
    cases args with
    | nil =>
      unfold parseArgs at hp
      cases hp
      rfl
    | cons s rest =>
      unfold parseArgs at hp
      rcases hc : classifyTok fs s with _ | _ | m | ⟨n, v⟩ | n <;> rw [hc] at hp
      · cases hp
        rfl
      · cases hp
        rfl
      · cases hp
      · have hrest : rest.length ≤ N := by
          have := hlen
          simp [List.length_cons] at this
          omega
        have hne : n ≠ name := by
          intro e
          exact hno s (List.mem_cons_self s rest)
            (e ▸ classify_assign_name hc n (Or.inl ⟨v, rfl⟩))
        have := ih rest hrest (setFlag fs n v) fs' pos name hp
          (fun tok ht => hno tok (List.mem_cons_of_mem s ht))
        rw [this, lookupFlag_setFlag_ne hne]
      · cases rest with
        | nil => cases hp
        | cons v rest2 =>
          have hrest : rest2.length ≤ N := by
            have := hlen
            simp [List.length_cons] at this
            omega
          have hne : n ≠ name := by
            intro e
            exact hno s (List.mem_cons_self s (v :: rest2))
              (e ▸ classify_assign_name hc n (Or.inr rfl))
          have := ih rest2 hrest (setFlag fs n v) fs' pos name hp
            (fun tok ht =>
              hno tok (List.mem_cons_of_mem s (List.mem_cons_of_mem v ht)))
          rw [this, lookupFlag_setFlag_ne hne]

/-- Flag parsing leaves the lookup of any flag no token targets unchanged. -/
theorem parseArgs_lookup {args : List String} {fs fs' : List FlagSpec}
    {pos : List String} {name : String}
    (hp : parseArgs fs args = .ok (fs', pos))
    (hno : ∀ tok ∈ args, tokFlagName tok ≠ some name) :
    lookupFlag fs' name = lookupFlag fs name :=
  parseArgs_lookup_aux args.length args le_rfl fs fs' pos name hp hno

/-- A successful flag scan reduces `Parse` to its arity and environment
checks. -/
theorem Parse_eq {cmd : Command} {env : String → String} {args : List String}
    {fl : List FlagSpec} {pos : List String}
    (hp : parseArgs cmd.Flags.formal args = .ok (fl, pos)) :
    cmd.Parse env args =
      (if (cmd.Args.any (fun a => a.Variable)) = false ∧ pos.length ≠ cmd.Args.length then
        .error (.usageErr "Wrong number of command arguments")
      else if (cmd.Args.any (fun a => a.Variable)) = true ∧ pos.length < cmd.Args.length then
        .error (.usageErr "Wrong number of command arguments")
      else
        match cmd.EnvArgs.find? (fun p => decide (cmd.EnvArg env p.1 = "")) with
        | some p => .error (.usageErr ("Environment variable " ++ p.1 ++ " is unset"))
        | none => .ok { cmd with Flags := { formal := fl, args := pos } }) := by
  unfold Command.Parse
  rw [hp]

/-- Inversion for a successful `Parse`: the flag scan succeeded and the
returned command is the original with the updated flag set and positional
suffix. -/
theorem Parse_ok_inv {cmd : Command} {env : String → String}
    {args : List String} {c : Command} (h : cmd.Parse env args = .ok c) :
    ∃ fl pos, parseArgs cmd.Flags.formal args = .ok (fl, pos) ∧
      c = { cmd with Flags := { formal := fl, args := pos } } := by
  rcases hp : parseArgs cmd.Flags.formal args with e | ⟨fl, pos⟩
  · unfold Command.Parse at h
    rw [hp] at h
    cases h
  · refine ⟨fl, pos, rfl, ?_⟩
    rw [Parse_eq hp] at h
    split at h
    · cases h
    · split at h
      · cases h
      · rcases hf : cmd.EnvArgs.find? (fun p => decide (cmd.EnvArg env p.1 = "")) with
            _ | p <;> rw [hf] at h
        · cases h
          rfl
        · cases h

/-- Splitting at the first `=` of `name=value` recovers name and value when
the name contains no `=`. -/
theorem splitAtEq_append {n v : List Char} (h : '=' ∉ n) :
    splitAtEq (n ++ '=' :: v) = (n, some v) := by
  induction n with
  | nil => simp [splitAtEq]
  | cons c t ih =>
    have hc : ¬ c = '=' := by
      intro e
      subst e
      exact h (List.mem_cons_self _ _)
    have ih2 := ih (fun m => h (List.mem_cons_of_mem c m))
    simp [splitAtEq, hc, ih2]

/-- No base-10 digit is a sign character. -/
theorem isDig_ne_sign {c : Char} (h : isDig c = true) : c ≠ '-' ∧ c ≠ '+' := by
  constructor <;> intro e <;> subst e <;> exact absurd h (by decide)

theorem goParseInt_neg {t : String} {rest : List Char} (b : Nat)
    (ht : t.data = '-' :: rest) :
    goParseInt t b =
      (if rest = [] ∨ ¬ decimalDigits rest then
        .error (numErr "ParseInt" t "invalid syntax")
      else if -(decVal rest : Int) < -(2 ^ (b - 1) : Int) ∨
          -(decVal rest : Int) > (2 ^ (b - 1) : Int) - 1 then
        .error (numErr "ParseInt" t "value out of range")
      else .ok (-(decVal rest : Int))) := by
  unfold goParseInt
  rw [ht]
  simp

theorem goParseInt_pos {t : String} {rest : List Char} (b : Nat)
    (ht : t.data = '+' :: rest) :
    goParseInt t b =
      (if rest = [] ∨ ¬ decimalDigits rest then
        .error (numErr "ParseInt" t "invalid syntax")
      else if (decVal rest : Int) < -(2 ^ (b - 1) : Int) ∨
          (decVal rest : Int) > (2 ^ (b - 1) : Int) - 1 then
        .error (numErr "ParseInt" t "value out of range")
      else .ok (decVal rest : Int)) := by
  unfold goParseInt
  rw [ht]
  simp

theorem goParseInt_dig {t : String} {c : Char} {rest : List Char} (b : Nat)
    (ht : t.data = c :: rest) (hm : c ≠ '-') (hp : c ≠ '+') :
    goParseInt t b =
      (if ¬ decimalDigits (c :: rest) then
        .error (numErr "ParseInt" t "invalid syntax")
      else if (decVal (c :: rest) : Int) < -(2 ^ (b - 1) : Int) ∨
          (decVal (c :: rest) : Int) > (2 ^ (b - 1) : Int) - 1 then
        .error (numErr "ParseInt" t "value out of range")
      else .ok (decVal (c :: rest) : Int)) := by
  unfold goParseInt
  rw [ht]
  simp [hm, hp]

/-- A digit list never equals a signed character list. -/
theorem decimalDigits_no_sign {ds : List Char} {c : Char} {rest : List Char}
    (hdig : decimalDigits ds = true) (hsign : c = '-' ∨ c = '+')
    (h : ds = c :: rest) : False := by
  subst h
  have hc : isDig c = true := by
    rw [decimalDigits, List.all_eq_true] at hdig
    exact hdig c (List.mem_cons_self _ _)
  rcases hsign with e | e <;> subst e
  · exact (isDig_ne_sign hc).1 rfl
  · exact (isDig_ne_sign hc).2 rfl

/-- Lemma: `strconv.ParseInt` succeeds exactly on base-10 integer notation whose
value fits the signed width. -/
theorem goParseInt_isOk_iff (t : String) (b : Nat) :
    (goParseInt t b).isOk = true ↔
      ∃ i : Int, SpecRep t true i ∧
        -(2 ^ (b - 1) : Int) ≤ i ∧ i ≤ (2 ^ (b - 1) : Int) - 1 := by
  rcases ht : t.data with _ | ⟨c, rest⟩
  · unfold goParseInt
    rw [ht]
    constructor
    · intro h
      cases h
    · rintro ⟨i, ⟨ds, hne, hdig, hcase⟩, hlo, hhi⟩
      rcases hcase with ⟨hd, _⟩ | ⟨_, hd, _⟩ | ⟨_, hd, _⟩ <;> rw [ht] at hd
      · exact absurd hd.symm hne
      · cases hd
      · cases hd
  · by_cases hm : c = '-'
    · subst hm
      rw [goParseInt_neg b ht]
      constructor
      · intro h
        by_cases h1 : rest = [] ∨ ¬ decimalDigits rest = true
        · rw [if_pos h1] at h
          cases h
        · rw [if_neg h1] at h
          push_neg at h1
          by_cases h2 : -(decVal rest : Int) < -(2 ^ (b - 1) : Int) ∨
              -(decVal rest : Int) > (2 ^ (b - 1) : Int) - 1
          · rw [if_pos h2] at h
            cases h
          · push_neg at h2
            exact ⟨-(decVal rest : Int),
              ⟨rest, h1.1, h1.2, Or.inr (Or.inr ⟨rfl, ht, rfl⟩)⟩, h2.1, h2.2⟩
      · rintro ⟨i, ⟨ds, hne, hdig, hcase⟩, hlo, hhi⟩
        rcases hcase with ⟨hd, hi⟩ | ⟨_, hd, hi⟩ | ⟨_, hd, hi⟩ <;> rw [ht] at hd
        · exact (decimalDigits_no_sign hdig (Or.inl rfl) hd.symm).elim
        · cases hd
        · injection hd with hh htl
          subst htl
          have h1 : ¬ (rest = [] ∨ ¬ decimalDigits rest = true) := by
            push_neg
            exact ⟨hne, hdig⟩
          rw [if_neg h1]
          have h2 : ¬ (-(decVal rest : Int) < -(2 ^ (b - 1) : Int) ∨
              -(decVal rest : Int) > (2 ^ (b - 1) : Int) - 1) := by
            push_neg
            rw [← hi]
            exact ⟨hlo, hhi⟩
          rw [if_neg h2]
          rfl
    · by_cases hp : c = '+'
      · subst hp
        rw [goParseInt_pos b ht]
        constructor
        · intro h
          by_cases h1 : rest = [] ∨ ¬ decimalDigits rest = true
          · rw [if_pos h1] at h
            cases h
          · rw [if_neg h1] at h
            push_neg at h1
            by_cases h2 : (decVal rest : Int) < -(2 ^ (b - 1) : Int) ∨
                (decVal rest : Int) > (2 ^ (b - 1) : Int) - 1
            · rw [if_pos h2] at h
              cases h
            · push_neg at h2
              exact ⟨(decVal rest : Int),
                ⟨rest, h1.1, h1.2, Or.inr (Or.inl ⟨rfl, ht, rfl⟩)⟩, h2.1, h2.2⟩
        · rintro ⟨i, ⟨ds, hne, hdig, hcase⟩, hlo, hhi⟩
          rcases hcase with ⟨hd, hi⟩ | ⟨_, hd, hi⟩ | ⟨_, hd, hi⟩ <;> rw [ht] at hd
          · exact (decimalDigits_no_sign hdig (Or.inr rfl) hd.symm).elim
          · injection hd with hh htl
            subst htl
            have h1 : ¬ (rest = [] ∨ ¬ decimalDigits rest = true) := by
              push_neg
              exact ⟨hne, hdig⟩
            rw [if_neg h1]
            have h2 : ¬ ((decVal rest : Int) < -(2 ^ (b - 1) : Int) ∨
                (decVal rest : Int) > (2 ^ (b - 1) : Int) - 1) := by
              push_neg
              rw [← hi]
              exact ⟨hlo, hhi⟩
            rw [if_neg h2]
            rfl
          · injection hd with hh htl
            exact absurd hh hm
      · rw [goParseInt_dig b ht hm hp]
        constructor
        · intro h
          by_cases h1 : ¬ decimalDigits (c :: rest) = true
          · rw [if_pos h1] at h
            cases h
          · rw [if_neg h1] at h
            push_neg at h1
            by_cases h2 : (decVal (c :: rest) : Int) < -(2 ^ (b - 1) : Int) ∨
                (decVal (c :: rest) : Int) > (2 ^ (b - 1) : Int) - 1
            · rw [if_pos h2] at h
              cases h
            · push_neg at h2
              exact ⟨(decVal (c :: rest) : Int),
                ⟨c :: rest, by simp, h1, Or.inl ⟨ht, rfl⟩⟩, h2.1, h2.2⟩
        · rintro ⟨i, ⟨ds, hne, hdig, hcase⟩, hlo, hhi⟩
          rcases hcase with ⟨hd, hi⟩ | ⟨_, hd, hi⟩ | ⟨_, hd, hi⟩ <;> rw [ht] at hd
          · subst hd
            have h1 : ¬ ¬ decimalDigits (c :: rest) = true := by
              push_neg
              exact hdig
            rw [if_neg h1]
            have h2 : ¬ ((decVal (c :: rest) : Int) < -(2 ^ (b - 1) : Int) ∨
                (decVal (c :: rest) : Int) > (2 ^ (b - 1) : Int) - 1) := by
              push_neg
              rw [← hi]
              exact ⟨hlo, hhi⟩
            rw [if_neg h2]
            rfl
          · injection hd with hh htl
            exact absurd hh hp
          · injection hd with hh htl
            exact absurd hh hm

/-- Lemma: `strconv.ParseUint` succeeds exactly on unsigned base-10 notation whose
value fits the width. -/
theorem goParseUint_isOk_iff (t : String) (b : Nat) :
    (goParseUint t b).isOk = true ↔
      ∃ n : Nat, SpecRep t false (n : Int) ∧ n ≤ 2 ^ b - 1 := by
  unfold goParseUint
  constructor
  · intro h
    by_cases h1 : t.data = [] ∨ ¬ decimalDigits t.data = true
    · rw [if_pos h1] at h
      cases h
    · rw [if_neg h1] at h
      push_neg at h1
      by_cases h2 : decVal t.data > 2 ^ b - 1
      · rw [if_pos h2] at h
        cases h
      · push_neg at h2
        exact ⟨decVal t.data, ⟨t.data, h1.1, h1.2, Or.inl ⟨rfl, rfl⟩⟩, h2⟩
  · rintro ⟨n, ⟨ds, hne, hdig, hcase⟩, hw⟩
    rcases hcase with ⟨hd, hi⟩ | ⟨hf, _, _⟩ | ⟨hf, _, _⟩
    · have h1 : ¬ (t.data = [] ∨ ¬ decimalDigits t.data = true) := by
        push_neg
        rw [hd]
        exact ⟨hne, hdig⟩
      rw [if_neg h1]
      have hn : n = decVal t.data := by
        rw [hd]
        exact_mod_cast hi
      have h2 : ¬ decVal t.data > 2 ^ b - 1 := by
        rw [← hn]
        omega
      rw [if_neg h2]
      rfl
    · cases hf
    · cases hf

/-- Every `goParseInt` result is a success or a `NumError` naming the
offending text. -/
theorem goParseInt_err_shape (t : String) (b : Nat) :
    (∃ i, goParseInt t b = .ok i) ∨
      ∃ r, goParseInt t b = .error (numErr "ParseInt" t r) := by
  unfold goParseInt
  rcases ht : t.data with _ | ⟨c, rest⟩
  · exact Or.inr ⟨_, rfl⟩
  · simp only
    repeat' split
    all_goals first
      | exact Or.inl ⟨_, rfl⟩
      | exact Or.inr ⟨_, rfl⟩

/-- Every `goParseUint` result is a success or a `NumError` naming the
offending text. -/
theorem goParseUint_err_shape (t : String) (b : Nat) :
    (∃ n, goParseUint t b = .ok n) ∨
      ∃ r, goParseUint t b = .error (numErr "ParseUint" t r) := by
  unfold goParseUint
  split
  · exact Or.inr ⟨_, rfl⟩
  · split
    · exact Or.inr ⟨_, rfl⟩
    · exact Or.inl ⟨_, rfl⟩

/-- Sorting strings yields a sorted list. -/
theorem strSort_sorted (l : List String) : List.Sorted (· ≤ ·) (strSort l) :=
  List.sorted_insertionSort _ l

/-- Sorting is canonical: permuted inputs sort to the same list. -/
theorem strSort_perm_eq {l₁ l₂ : List String} (h : l₁.Perm l₂) :
    strSort l₁ = strSort l₂ :=
  List.eq_of_perm_of_sorted
    ((List.perm_insertionSort _ l₁).trans (h.trans (List.perm_insertionSort _ l₂).symm))
    (strSort_sorted l₁) (strSort_sorted l₂)

/-- Registering a command list produces exactly its name-keyed pairing. -/
theorem registerAll_Commands (cs : List Command) :
    (registerAll cs).Commands = cs.map (fun c => (c.Name, c)) := by
  have haux : ∀ (cs : List Command) (a : App),
      (cs.foldl App.AddCommand a).Commands =
        a.Commands ++ cs.map (fun c => (c.Name, c)) := by
    intro cs
    induction cs with
    | nil =>
      intro a
      simp
    | cons c t ih =>
      intro a
      simp [List.foldl_cons, App.AddCommand, ih]
  simp [registerAll, haux, NewApp]

/-- C4: for every registered command and token list, the registry `Run`
renders application-level usage and returns success when the command-name
token is the help flag; and when any token after the command name is the
help flag, it renders the usage of that command and returns success without
invoking `Parse` or the `Run` callback of the command (the outcome constructors
`usageShownApp` and `usageShownCmd` are distinct from every parsing or
dispatching outcome). -/
theorem c4_help_short_circuit (app : App) (env : String → String)
    (prog : String) (rest : List String) :
    (App.Run app env (prog :: "--help" :: rest) = .usageShownApp) ∧
    (∀ name cmd, name ≠ "--help" → app.lookupCmd name = some cmd →
      "--help" ∈ rest →
      App.Run app env (prog :: name :: rest) = .usageShownCmd cmd.Name) := by
  constructor
  · simp [App.Run]
  · intro name cmd hne hlk hmem
    have hany : rest.any (fun a => a = "--help") = true := by
      rw [List.any_eq_true]
      exact ⟨"--help", hmem, by simp⟩
    simp [App.Run, hne, hlk, hany]

/-- Witness for C4 on a concrete registry: `--help` as the command name
shows application usage; `--help` after a registered command name shows
the usage of that command. -/
theorem c4_witness :
    App.Run app4 emptyEnv ["prog", "--help"] = .usageShownApp ∧
    App.Run app4 emptyEnv ["prog", "test", "--help"] = .usageShownCmd "test" := by
  constructor
  · exact (c4_help_short_circuit app4 emptyEnv "prog" []).1
  · exact (c4_help_short_circuit app4 emptyEnv "prog" ["--help"]).2 "test" testCmd
      (by decide) (by decide) (by decide)

/-- C8: the registry `Run` fails with a usage error bound to
application-level usage, saying no command was given, on fewer than two
tokens; and with one saying the command is invalid when the command-name
token (not the help flag) matches no registered command.  In both cases the
outcome constructor `errApp` is distinct from every parsing or dispatching
outcome, so the `Parse` and `Run` callbacks of the commands are not involved. -/
theorem c8_registry_failures (app : App) (env : String → String) :
    (∀ args : List String, args.length < 2 →
      App.Run app env args = .errApp "No command given") ∧
    (∀ prog name rest, name ≠ "--help" → app.lookupCmd name = none →
      App.Run app env (prog :: name :: rest) = .errApp "Invalid command") := by
  constructor
  · intro args hlen
    match args with
    | [] => rfl
    | [_] => rfl
    | _ :: _ :: _ =>
      simp only [List.length_cons] at hlen
      exact absurd hlen (by omega)
  · intro prog name rest hne hlk
    simp [App.Run, hne, hlk]

/-- Witness for C8 on a concrete registry: an empty token list, a lone
program name, and an unknown command name all fail as stated. -/
theorem c8_witness :
    App.Run app4 emptyEnv [] = .errApp "No command given" ∧
    App.Run app4 emptyEnv ["prog"] = .errApp "No command given" ∧
    App.Run app4 emptyEnv ["prog", "nope"] = .errApp "Invalid command" := by
  refine ⟨(c8_registry_failures app4 emptyEnv).1 [] (by decide),
    (c8_registry_failures app4 emptyEnv).1 ["prog"] (by decide),
    (c8_registry_failures app4 emptyEnv).2 "prog" "nope" [] (by decide) (by decide)⟩

/-- C10: `Flag(name)` is safe exactly when a flag of that name was
declared: a declared name (also any name just added by `AddFlag` or
`AddFlagBool`) yields a Value, while an undeclared name makes the flag-set
lookup return `nil` and the dereference panic (modelled as `none`). -/
theorem c10_flag_lookup_safety (cmd : Command) (name : String) :
    ((∃ f ∈ cmd.Flags.formal, f.name = name) → (cmd.Flag name).isSome = true) ∧
    ((∀ f ∈ cmd.Flags.formal, f.name ≠ name) → cmd.Flag name = none) ∧
    (∀ d desc, ((cmd.AddFlag name d desc).Flag name).isSome = true) ∧
    (∀ b desc, ((cmd.AddFlagBool name b desc).Flag name).isSome = true) := by
  refine ⟨?_, ?_, ?_, ?_⟩
  · rintro ⟨f, hmem, hname⟩
    unfold Command.Flag lookupFlag
    have hs : (cmd.Flags.formal.find? (fun f => f.name = name)).isSome = true := by
      rw [List.find?_isSome]
      exact ⟨f, hmem, by simp [hname]⟩
    rcases hf : cmd.Flags.formal.find? (fun f => f.name = name) with _ | g
    · rw [hf] at hs
      cases hs
    · rw [hf]
      rfl
  · intro h
    unfold Command.Flag lookupFlag
    have hn : cmd.Flags.formal.find? (fun f => f.name = name) = none := by
      rw [List.find?_eq_none]
      intro f hm
      simp [h f hm]
    rw [hn]
    rfl
  · intro d desc
    have hform : (cmd.AddFlag name d desc).Flags.formal =
        cmd.Flags.formal ++ [(⟨name, desc, false, d, d⟩ : FlagSpec)] := rfl
    unfold Command.Flag lookupFlag
    rw [hform, List.find?_append]
    rcases cmd.Flags.formal.find? (fun f => f.name = name) with _ | g
    · simp [List.find?]
    · simp
  · intro b desc
    have hform : (cmd.AddFlagBool name b desc).Flags.formal =
        cmd.Flags.formal ++ [(⟨name, desc, true, if b then "true" else "false",
          if b then "true" else "false"⟩ : FlagSpec)] := rfl
    unfold Command.Flag lookupFlag
    rw [hform, List.find?_append]
    rcases cmd.Flags.formal.find? (fun f => f.name = name) with _ | g
    · simp [List.find?]
    · simp

/-- Witness for C10: a command with no declared flags panics on lookup of
an undeclared name, and a just-declared flag is looked up safely. -/
theorem c10_witness :
    testCmd.Flag "nope" = none ∧
    ((testCmd.AddFlag "flag" "default" "a flag").Flag "flag").isSome = true := by
  constructor
  · exact (c10_flag_lookup_safety testCmd "nope").2.1 (by decide)
  · exact (c10_flag_lookup_safety testCmd "flag").2.2.1 "default" "a flag"

/-- Counterexample to C1 as stated: `c1cmd` declares one fixed Arg before
its variable Arg (so N = 1).  On one positional token the count 1 is ≥ N,
yet Parse fails the arity check — the code demands at least N + 1 tokens so
the variable slot binds at least one. -/
theorem c1_counterexample :
    parseArgs c1cmd.Flags.formal ["x"] = .ok (c1cmd.Flags.formal, ["x"]) ∧
    1 ≥ 1 ∧
    (c1cmd.Parse emptyEnv ["x"]).isOk = false := by
  exact ⟨by decide, by decide, by decide⟩

/-- C1, amended: for a command whose last declared Arg is variable with N
fixed Args before it, Parse succeeds (with respect to the arity check) iff
the positional token count is ≥ N + 1; after a successful Parse,
`VarArgs()` returns exactly the trailing positional tokens from index N
onward, in input order — that is, count − N Values. -/
theorem c1_vararg_arity_amended (cmd : Command) (env : String → String)
    (args : List String) (fl : List FlagSpec) (pos : List String)
    (fixed : List Arg) (varg : Arg)
    (hargs : cmd.Args = fixed ++ [varg])
    (hfix : ∀ a ∈ fixed, a.Variable = false)
    (hvar : varg.Variable = true)
    (hp : parseArgs cmd.Flags.formal args = .ok (fl, pos))
    (henv : ∀ p ∈ cmd.EnvArgs, cmd.EnvArg env p.1 ≠ "") :
    ((cmd.Parse env args).isOk = true ↔ pos.length ≥ fixed.length + 1) ∧
    (∀ c, cmd.Parse env args = .ok c →
      c.VarArgs = some (pos.drop fixed.length) ∧
      (pos.drop fixed.length).length = pos.length - fixed.length) := by
  have hany : cmd.Args.any (fun a => a.Variable) = true := by
    rw [List.any_eq_true]
    exact ⟨varg, by simp [hargs], hvar⟩
  have hlen : cmd.Args.length = fixed.length + 1 := by
    simp [hargs]
  have hfind : cmd.EnvArgs.find? (fun p => decide (cmd.EnvArg env p.1 = "")) = none := by
    rw [List.find?_eq_none]
    intro p hm
    simpa using henv p hm
  have hiff : (cmd.Parse env args).isOk = true ↔ pos.length ≥ fixed.length + 1 := by
    rw [Parse_eq hp]
    have hc1 : ¬((cmd.Args.any fun a => a.Variable) = false ∧
        pos.length ≠ cmd.Args.length) := by
      simp [hany]
    rw [if_neg hc1]
    by_cases hlt : pos.length < cmd.Args.length
    · rw [if_pos ⟨hany, hlt⟩]
      constructor
      · intro hok
        cases hok
      · intro hge
        exact absurd hge (by omega)
    · rw [if_neg (fun hc => hlt hc.2), hfind]
      constructor
      · intro _
        omega
      · intro _
        rfl
  refine ⟨hiff, ?_⟩
  intro c hc
  have hge : pos.length ≥ fixed.length + 1 := hiff.mp (by rw [hc]; rfl)
  obtain ⟨fl', pos', hp', hceq⟩ := Parse_ok_inv hc
  rw [hp] at hp'
  injection hp' with hpair
  injection hpair with hfl hpos
  subst hfl
  subst hpos
  subst hceq
  constructor
  · unfold Command.VarArgs goSliceFrom
    have hargsc : ({ cmd with Flags := { formal := fl, args := pos } } : Command).Args =
        cmd.Args := rfl
    have hflagsc : ({ cmd with Flags := { formal := fl, args := pos } } : Command).Flags.args =
        pos := rfl
    rw [hargsc, hflagsc, hlen]
    have hcond : (0 : Int) ≤ ((fixed.length + 1 : Nat) : Int) - 1 ∧
        ((fixed.length + 1 : Nat) : Int) - 1 ≤ (pos.length : Int) := by
      constructor <;> omega
    rw [if_pos hcond]
    have htn : (((fixed.length + 1 : Nat) : Int) - 1).toNat = fixed.length := by
      omega
    rw [htn]
  · rw [List.length_drop]

/-- Witness for the amended C1: one fixed Arg, a variable Arg and three
positional tokens parse successfully, and `VarArgs()` returns the two
trailing tokens in order. -/
theorem c1_witness :
    ((c1cmd.Parse emptyEnv ["x", "y", "z"]).isOk = true ↔
      (["x", "y", "z"] : List String).length ≥ 1 + 1) ∧
    c1parsed.VarArgs = some ((["x", "y", "z"] : List String).drop 1) := by
  have h := c1_vararg_arity_amended c1cmd emptyEnv ["x", "y", "z"]
    c1cmd.Flags.formal ["x", "y", "z"]
    [{ Name := "a", Description := "arg a", Variable := false }]
    { Name := "rest", Description := "trailing args", Variable := true }
    (by decide) (by decide) (by decide) (by decide) (by decide)
  exact ⟨h.1, (h.2 c1parsed (by decide)).1⟩

/-- Counterexample to C2 as stated: `c2cmd` declares one fixed Arg and no
variable Arg.  After a successful Parse on one token, `VarArgs()` returns
that token as a singleton, not the empty sequence. -/
theorem c2_counterexample :
    ((c2cmd.Parse emptyEnv ["x"]).toOption.map Command.VarArgs) =
      some (some ["x"]) ∧
    (["x"] : List Value) ≠ ([] : List Value) := by
  exact ⟨by decide, by decide⟩

/-- C2, amended: for a command with no variable Arg, after a successful
Parse `VarArgs()` does not return the empty sequence: with at least one
declared Arg it returns the singleton holding the last positional token,
and with zero declared Args the slice expression `args[len(Args)-1:]` has
bound −1 and panics. -/
theorem c2_novararg_amended (cmd : Command) (env : String → String)
    (args : List String) (c : Command)
    (hfix : ∀ a ∈ cmd.Args, a.Variable = false)
    (hok : cmd.Parse env args = .ok c) :
    (cmd.Args = [] → c.VarArgs = none) ∧
    (cmd.Args ≠ [] → ∃ t, c.Flags.args.getLast? = some t ∧ c.VarArgs = some [t]) := by
  have hany : cmd.Args.any (fun a => a.Variable) = false := by
    rw [List.any_eq_false]
    intro a ha
    simp [hfix a ha]
  obtain ⟨fl, pos, hp, hceq⟩ := Parse_ok_inv hok
  have hplen : pos.length = cmd.Args.length := by
    by_contra hne
    rw [Parse_eq hp, if_pos ⟨hany, hne⟩] at hok
    cases hok
  subst hceq
  constructor
  · intro hnil
    unfold Command.VarArgs goSliceFrom
    have hargsc : ({ cmd with Flags := { formal := fl, args := pos } } : Command).Args =
        cmd.Args := rfl
    rw [hargsc, hnil]
    simp
  · intro hne
    have hposne : pos ≠ [] := by
      intro he
      rw [he] at hplen
      exact hne (List.length_eq_zero.mp hplen.symm)
    obtain ⟨t, ht1, ht2⟩ := drop_pred_getLast hposne
    refine ⟨t, ht1, ?_⟩
    unfold Command.VarArgs goSliceFrom
    have hargsc : ({ cmd with Flags := { formal := fl, args := pos } } : Command).Args =
        cmd.Args := rfl
    have hflagsc : ({ cmd with Flags := { formal := fl, args := pos } } : Command).Flags.args =
        pos := rfl
    rw [hargsc, hflagsc]
    have hlen1 : 1 ≤ cmd.Args.length := by
      cases harg : cmd.Args with
      | nil => exact absurd harg hne
      | cons x xs => simp [harg, List.length_cons]
    have hcond : (0 : Int) ≤ (cmd.Args.length : Int) - 1 ∧
        (cmd.Args.length : Int) - 1 ≤ (pos.length : Int) := by
      constructor <;> omega
    rw [if_pos hcond]
    have htn : ((cmd.Args.length : Int) - 1).toNat = pos.length - 1 := by
      omega
    rw [htn, ht2]

/-- Witness for the amended C2: one fixed Arg and one token parse
successfully, and `VarArgs()` returns the singleton holding that token. -/
theorem c2_witness :
    c2parsed.Flags.args.getLast? = some "x" ∧ c2parsed.VarArgs = some ["x"] := by
  obtain ⟨t, ht1, ht2⟩ :=
    (c2_novararg_amended c2cmd emptyEnv ["x"] c2parsed (by decide) (by decide)).2
      (by decide)
  have hgl : c2parsed.Flags.args.getLast? = some "x" := by rfl
  rw [hgl] at ht1
  injection ht1 with he
  subst he
  exact ⟨hgl, ht2⟩

/-- C3: with the flag scan successful and every required environment
variable non-blank, the arity check is exact: a command with no variable
Arg fails Parse iff the positional count differs from the declared count,
and a command whose last Arg is variable fails iff the count is strictly
below the declared count (variable slot binds at least one token). -/
theorem c3_arity_check (cmd : Command) (env : String → String)
    (args : List String) (fl : List FlagSpec) (pos : List String)
    (hp : parseArgs cmd.Flags.formal args = .ok (fl, pos))
    (henv : ∀ p ∈ cmd.EnvArgs, cmd.EnvArg env p.1 ≠ "") :
    ((∀ a ∈ cmd.Args, a.Variable = false) →
      ((cmd.Parse env args).isOk = false ↔ pos.length ≠ cmd.Args.length)) ∧
    ((∃ last, cmd.Args.getLast? = some last ∧ last.Variable = true) →
      ((cmd.Parse env args).isOk = false ↔ pos.length < cmd.Args.length)) := by
  have hfind : cmd.EnvArgs.find? (fun p => decide (cmd.EnvArg env p.1 = "")) = none := by
    rw [List.find?_eq_none]
    intro p hm
    simpa using henv p hm
  constructor
  · intro hfix
    have hany : cmd.Args.any (fun a => a.Variable) = false := by
      rw [List.any_eq_false]
      intro a ha
      simp [hfix a ha]
    rw [Parse_eq hp]
    by_cases heq : pos.length = cmd.Args.length
    · have hc1 : ¬((cmd.Args.any fun a => a.Variable) = false ∧
          pos.length ≠ cmd.Args.length) := by
        simp [heq]
      rw [if_neg hc1, if_neg (by simp [hany]), hfind]
      simp [heq, Except.isOk, Except.toBool]
    · rw [if_pos ⟨hany, heq⟩]
      simp [heq, Except.isOk, Except.toBool]
  · intro hlast
    obtain ⟨last, hgl, hlv⟩ := hlast
    have hmem : last ∈ cmd.Args := List.mem_of_mem_getLast? hgl
    have hany : cmd.Args.any (fun a => a.Variable) = true := by
      rw [List.any_eq_true]
      exact ⟨last, hmem, hlv⟩
    rw [Parse_eq hp]
    rw [if_neg (by simp [hany])]
    by_cases hlt : pos.length < cmd.Args.length
    · rw [if_pos ⟨hany, hlt⟩]
      simp [hlt, Except.isOk, Except.toBool]
    · rw [if_neg (fun hc => hlt hc.2), hfind]
      simp [hlt, Except.isOk, Except.toBool]

/-- Witness for C3: two fixed Args with two tokens succeed (count equal),
and the variable-Arg command with one token fails (count below declared). -/
theorem c3_witness :
    ((c3cmd.Parse emptyEnv ["x", "y"]).isOk = false ↔
      (["x", "y"] : List String).length ≠ c3cmd.Args.length) ∧
    ((c1cmd.Parse emptyEnv ["x"]).isOk = false ↔
      (["x"] : List String).length < c1cmd.Args.length) := by
  constructor
  · exact (c3_arity_check c3cmd emptyEnv ["x", "y"] c3cmd.Flags.formal ["x", "y"]
      (by decide) (by decide)).1 (by decide)
  · exact (c3_arity_check c1cmd emptyEnv ["x"] c1cmd.Flags.formal ["x"]
      (by decide) (by decide)).2
      ⟨{ Name := "rest", Description := "trailing args", Variable := true },
        by decide, by decide⟩

/-- C6: with the flag scan successful and the arity check satisfied, Parse
passes the environment check iff every required variable is non-blank after
trimming, and otherwise fails with the usage error naming a blank one;
`EnvArg` reads through `strings.TrimSpace`, whose result has no leading or
trailing whitespace and is the raw value minus whitespace margins. -/
theorem c6_env_check (cmd : Command) (env : String → String)
    (args : List String) (fl : List FlagSpec) (pos : List String)
    (hp : parseArgs cmd.Flags.formal args = .ok (fl, pos))
    (harity : ((cmd.Args.any fun a => a.Variable) = false ∧
        pos.length = cmd.Args.length) ∨
      ((cmd.Args.any fun a => a.Variable) = true ∧
        cmd.Args.length ≤ pos.length)) :
    ((∀ p ∈ cmd.EnvArgs, cmd.EnvArg env p.1 ≠ "") →
      (cmd.Parse env args).isOk = true) ∧
    ((∃ p ∈ cmd.EnvArgs, cmd.EnvArg env p.1 = "") →
      ∃ n, (∃ d, (n, d) ∈ cmd.EnvArgs) ∧ cmd.EnvArg env n = "" ∧
        cmd.Parse env args =
          .error (.usageErr ("Environment variable " ++ n ++ " is unset"))) ∧
    (∀ name, cmd.EnvArg env name = trimSpace (env name)) ∧
    (∀ s c, (trimSpace s).data.head? = some c → isSpace c = false) ∧
    (∀ s c, (trimSpace s).data.getLast? = some c → isSpace c = false) ∧
    (∀ s : String, ∃ pre post, s.data = pre ++ (trimSpace s).data ++ post ∧
      pre.all isSpace = true ∧ post.all isSpace = true) := by
  have hc1 : ¬((cmd.Args.any fun a => a.Variable) = false ∧
      pos.length ≠ cmd.Args.length) := by
    rcases harity with ⟨ha, he⟩ | ⟨ha, _⟩
    · simp [he]
    · simp [ha]
  have hc2 : ¬((cmd.Args.any fun a => a.Variable) = true ∧
      pos.length < cmd.Args.length) := by
    rcases harity with ⟨ha, _⟩ | ⟨ha, hle⟩
    · simp [ha]
    · exact fun hc => absurd hc.2 (by omega)
  refine ⟨?_, ?_, fun _ => rfl, ?_, ?_, ?_⟩
  · intro henv
    have hfind : cmd.EnvArgs.find? (fun p => decide (cmd.EnvArg env p.1 = "")) = none := by
      rw [List.find?_eq_none]
      intro p hm
      simpa using henv p hm
    rw [Parse_eq hp, if_neg hc1, if_neg hc2, hfind]
    rfl
  · rintro ⟨q, hqm, hqe⟩
    have hsome : (cmd.EnvArgs.find? (fun p => decide (cmd.EnvArg env p.1 = ""))).isSome =
        true := by
      rw [List.find?_isSome]
      exact ⟨q, hqm, by simp [hqe]⟩
    rcases hr : cmd.EnvArgs.find? (fun p => decide (cmd.EnvArg env p.1 = "")) with _ | r
    · rw [hr] at hsome
      cases hsome
    · have hre : cmd.EnvArg env r.1 = "" := by
        have := List.find?_some hr
        simpa using this
      have hrm : r ∈ cmd.EnvArgs := List.mem_of_find?_eq_some hr
      refine ⟨r.1, ⟨r.2, ?_⟩, hre, ?_⟩
      · exact hrm
      · rw [Parse_eq hp, if_neg hc1, if_neg hc2, hr]
  · intro s c h
    exact trimChars_head h
  · intro s c h
    exact trimChars_getLast h
  · intro s
    exact trimChars_decomp s.data

/-- Witness for C6: with the single required variable holding padded text,
Parse passes the check; with it unset, Parse fails naming it. -/
theorem c6_witness :
    (c6cmd.Parse paddedEnv []).isOk = true ∧
    ∃ n, (∃ d, (n, d) ∈ c6cmd.EnvArgs) ∧ c6cmd.EnvArg emptyEnv n = "" ∧
      c6cmd.Parse emptyEnv [] =
        .error (.usageErr ("Environment variable " ++ n ++ " is unset")) := by
  constructor
  · exact (c6_env_check c6cmd paddedEnv [] c6cmd.Flags.formal []
      (by decide) (Or.inl (by decide))).1 (by decide)
  · exact (c6_env_check c6cmd emptyEnv [] c6cmd.Flags.formal []
      (by decide) (Or.inl (by decide))).2.1 ⟨("HOME_DIR", "home directory"),
        by decide, by decide⟩

/-- C5: the Value numeric conversions evaluate as the specification lists
(42 parses, dog fails, the 18-digit value fits int64 and uint64 but
overflows 32-bit Int), each conversion succeeds exactly on base-10 notation
within its width (`Uint64` rejecting any sign), and every failure of each
of `Int`, `Int64` and `Uint64` is a `NumError` naming the offending
text. -/
theorem c5_value_numeric_conversions :
    Value.Int "42" = .ok 42 ∧
    (Value.Int "dog").isOk = false ∧
    Value.Int64 "-673758150012174337" = .ok (-673758150012174337) ∧
    (Value.Uint64 "673758150012174337").isOk = true ∧
    (Value.Int "673758150012174337").isOk = false ∧
    (∀ t : Value, (Value.Int t).isOk = true ↔
      ∃ i : Int, SpecRep t true i ∧
        -(2 ^ (32 - 1) : Int) ≤ i ∧ i ≤ (2 ^ (32 - 1) : Int) - 1) ∧
    (∀ t : Value, (Value.Int64 t).isOk = true ↔
      ∃ i : Int, SpecRep t true i ∧
        -(2 ^ (64 - 1) : Int) ≤ i ∧ i ≤ (2 ^ (64 - 1) : Int) - 1) ∧
    (∀ t : Value, (Value.Uint64 t).isOk = true ↔
      ∃ n : Nat, SpecRep t false (n : Int) ∧ n ≤ 2 ^ 64 - 1) ∧
    (∀ t : Value, (Value.Int t).isOk = false →
      ∃ r, Value.Int t = .error (numErr "ParseInt" t r)) ∧
    (∀ t : Value, (Value.Int64 t).isOk = false →
      ∃ r, Value.Int64 t = .error (numErr "ParseInt" t r)) ∧
    (∀ t : Value, (Value.Uint64 t).isOk = false →
      ∃ r, Value.Uint64 t = .error (numErr "ParseUint" t r)) := by
  refine ⟨by decide, by decide, by decide, by decide, by decide, ?_, ?_, ?_, ?_, ?_, ?_⟩
  · intro t
    exact goParseInt_isOk_iff t 32
  · intro t
    exact goParseInt_isOk_iff t 64
  · intro t
    exact goParseUint_isOk_iff t 64
  · intro t hfalse
    rcases goParseInt_err_shape t 32 with ⟨i, hok⟩ | ⟨r, herr⟩
    · have hcontra : (goParseInt t 32).isOk = false := hfalse
      rw [hok] at hcontra
      cases hcontra
    · exact ⟨r, herr⟩
  · intro t hfalse
    rcases goParseInt_err_shape t 64 with ⟨i, hok⟩ | ⟨r, herr⟩
    · have hcontra : (goParseInt t 64).isOk = false := hfalse
      rw [hok] at hcontra
      cases hcontra
    · exact ⟨r, herr⟩
  · intro t hfalse
    rcases goParseUint_err_shape t 64 with ⟨n, hok⟩ | ⟨r, herr⟩
    · have hcontra : (goParseUint t 64).isOk = false := hfalse
      rw [hok] at hcontra
      cases hcontra
    · exact ⟨r, herr⟩

/-- Witness for C5: the failing 32-bit and 64-bit conversions of `dog`
each produce a `NumError` naming `dog`. -/
theorem c5_witness :
    (Value.Int "dog").isOk = false ∧
    (∃ r, Value.Int "dog" = .error (numErr "ParseInt" "dog" r)) ∧
    (∃ r, Value.Int64 "dog" = .error (numErr "ParseInt" "dog" r)) := by
  refine ⟨by decide, ?_, ?_⟩
  · exact c5_value_numeric_conversions.2.2.2.2.2.2.2.2.1 "dog" (by decide)
  · exact c5_value_numeric_conversions.2.2.2.2.2.2.2.2.2.1 "dog" (by decide)

/-- Sorted first components survive pairing each key with a payload. -/
theorem sorted_fst_pairing {l : List String} (F : String → List String)
    (h : List.Sorted (· ≤ ·) l) :
    List.Sorted (· ≤ ·) ((l.map (fun g => (g, F g))).map Prod.fst) := by
  rw [List.map_map]
  have hc : List.map (Prod.fst ∘ fun g => (g, F g)) l = List.map id l :=
    List.map_congr_left (fun x _ => rfl)
  rw [hc, List.map_id]
  exact h

/-- Bindings with pairwise distinct names are all survivors. -/
theorem survivors_eq_self {l : List (String × Command)}
    (h : (l.map Prod.fst).Nodup) : survivors l = l := by
  induction l with
  | nil => rfl
  | cons p rest ih =>
    rw [List.map_cons, List.nodup_cons] at h
    have hnotin : rest.any (fun q => q.1 = p.1) = false := by
      rw [List.any_eq_false]
      intro q hq
      simp only [decide_eq_true_eq]
      intro hqe
      exact h.1 (hqe ▸ List.mem_map_of_mem Prod.fst hq)
    unfold survivors
    rw [hnotin]
    simp [ih h.2]

/-- Counterexample to C9 as stated: two commands named `n` registered into
groups `g1` and `g2`.  The registry map keeps only the last registration of
a name, so the rendered listing shows `n` under `g2` for one registration
order and under `g1` for the other: the listing depends on the
registration order when names collide. -/
theorem c9_counterexample :
    (registerAll [dupA, dupB]).usageGroups = [("g2", ["n"])] ∧
    (registerAll [dupB, dupA]).usageGroups = [("g1", ["n"])] ∧
    (registerAll [dupA, dupB]).usageGroups ≠ (registerAll [dupB, dupA]).usageGroups := by
  exact ⟨by rfl, by rfl, by decide⟩

/-- C9, amended: the application-level usage listing shows groups in
lexicographic order of group name and the command names of each group in
lexicographic order; and for commands with pairwise distinct names —
the only case where one set of commands is registered, since a later
registration of the same name replaces the earlier one — the listing is
unchanged under any permutation of the registration order. -/
theorem c9_usage_grouping :
    (∀ app : App, List.Sorted (· ≤ ·) (app.usageGroups.map Prod.fst)) ∧
    (∀ app : App, ∀ g names, (g, names) ∈ app.usageGroups →
      List.Sorted (· ≤ ·) names) ∧
    (∀ cs₁ cs₂ : List Command, (cs₁.map Command.Name).Nodup → cs₁.Perm cs₂ →
      (registerAll cs₁).usageGroups = (registerAll cs₂).usageGroups) := by
  refine ⟨?_, ?_, ?_⟩
  · intro app
    simp only [App.usageGroups]
    exact sorted_fst_pairing _ (strSort_sorted _)
  · intro app g names hmem
    simp only [App.usageGroups] at hmem
    rw [List.mem_map] at hmem
    obtain ⟨g', hg', heq⟩ := hmem
    cases heq
    exact strSort_sorted _
  · intro cs₁ cs₂ hnd hperm
    have hnd2 : (cs₂.map Command.Name).Nodup :=
      (hperm.map Command.Name).nodup_iff.mp hnd
    have hkey1 : (registerAll cs₁).Commands.map Prod.fst = cs₁.map Command.Name := by
      rw [registerAll_Commands, List.map_map]
      rfl
    have hkey2 : (registerAll cs₂).Commands.map Prod.fst = cs₂.map Command.Name := by
      rw [registerAll_Commands, List.map_map]
      rfl
    have hs1 : survivors (registerAll cs₁).Commands = (registerAll cs₁).Commands :=
      survivors_eq_self (by rw [hkey1]; exact hnd)
    have hs2 : survivors (registerAll cs₂).Commands = (registerAll cs₂).Commands :=
      survivors_eq_self (by rw [hkey2]; exact hnd2)
    have h1 : (registerAll cs₁).Commands.Perm (registerAll cs₂).Commands := by
      rw [registerAll_Commands, registerAll_Commands]
      exact hperm.map _
    simp only [App.usageGroups]
    rw [hs1, hs2]
    have hg : strSort (((registerAll cs₁).Commands.map (fun p => p.2.Group)).dedup) =
        strSort (((registerAll cs₂).Commands.map (fun p => p.2.Group)).dedup) :=
      strSort_perm_eq (List.Perm.dedup (h1.map _))
    rw [hg]
    apply List.map_congr_left
    intro g _
    have hf : ((registerAll cs₁).Commands.filter (fun p => p.2.Group = g)).Perm
        ((registerAll cs₂).Commands.filter (fun p => p.2.Group = g)) :=
      h1.filter _
    have hs : strSort (((registerAll cs₁).Commands.filter
          (fun p => p.2.Group = g)).map (fun p => p.2.Name)) =
        strSort (((registerAll cs₂).Commands.filter
          (fun p => p.2.Group = g)).map (fun p => p.2.Name)) :=
      strSort_perm_eq (hf.map _)
    rw [hs]

/-- Witness for the amended C9: registering two distinctly named commands
in either order yields the same grouped usage listing. -/
theorem c9_witness :
    (registerAll [cmdGA, cmdGB]).usageGroups =
      (registerAll [cmdGB, cmdGA]).usageGroups := by
  exact c9_usage_grouping.2.2 [cmdGA, cmdGB] [cmdGB, cmdGA] (by decide) (by decide)

end CmdSpec
